import Mathlib

/-
Shallow embedding of the gomemfs repository (fs.go, type.go, fsoption.go,
stat.go, compose.go) and proofs about its specified behavior.

Modelling conventions:
* Go time.Time is modelled as Int; the Go zero time value is 0, and
  a.After(b) is b < a.
* Go byte slices are modelled as List Nat; a nil slice returned by a
  Fulfiller is Option.none, a non-nil slice (possibly empty) is some.
* Go errors are modelled by the inductive GoErr below.
* The map FS.keys is modelled as an association list that operations keep
  with at most one binding per name, matching a Go map.  The mutex is not
  modelled: each exported operation is one atomic function on the state,
  and every call to time.Now() inside one operation is the same instant,
  passed as the explicit argument now.
* Stateful methods return their result together with the updated FS.
-/

namespace Gomemfs

/-- Go error values observable from the store: the sentinel fs.ErrNotExist,
an opaque caller-supplied error tagged by a number, and an error wrapped
together with a path, as fmt.Errorf with a %q path argument and %w does. -/
inductive GoErr where
  | notExist : GoErr
  | user : Nat → GoErr
  | wrap : String → GoErr → GoErr
deriving DecidableEq

/-- Embeds the struct key of the repository: payload bytes, normalized name,
modification time, optional absolute expiry.  The fs back-pointer field is
omitted (it is only used to reach the owning store from a File). -/
structure Key where
  bytes : List Nat
  name : String
  modtime : Int
  expire : Option Int
deriving DecidableEq

/-- The quadruple produced by one Fulfiller callback (type.go):
content (none models a nil slice), optional modtime pointer, optional
expire pointer, and error. -/
structure FulfillOut where
  content : Option (List Nat)
  modtime : Option Int
  expire : Option Int
  err : Option GoErr
deriving DecidableEq

/-- A Fulfiller callback receives a normalized path string (type.go). -/
abbrev Fulfiller : Type := String → FulfillOut

/-- Embeds the struct FS of fs.go.  keys is the entry map, callbacks the
registered Fulfiller chain in registration order, plus the two flags. -/
structure FS where
  keys : List (String × Key)
  callbacks : List Fulfiller
  caseInsensitive : Bool
  statFulfills : Bool

/-! Embedding of the Go standard library path.Clean, path.Join,
strings.TrimPrefix and strings.ToLower used by fs.go and stat.go. -/

/-- The inner element-copying loop of Go path.Clean
(for ; r < n and path r is not a slash ; r++ append path r):
returns the extended output buffer and the remaining input. -/
def copyElement : List Char → List Char → List Char × List Char
  | out, [] => (out, [])
  | out, c :: rest =>
    if c = '/' then (out, c :: rest)
    else copyElement (out ++ [c]) rest

/-- The backtracking scan of Go path.Clean in its dotdot case: starting
from write index w, decrement while w is above dotdot and the buffer char
at w is not a slash; returns the final write index. -/
def backtrackW (out : List Char) (dotdot : Nat) : Nat → Nat
  | 0 => 0
  | w + 1 =>
    if dotdot < w + 1 ∧ out.getD (w + 1) ' ' ≠ '/' then backtrackW out dotdot w
    else w + 1

/-- Go path.Clean's dotdot handling when out.w is above dotdot:
out.w is decremented once, then backtracked to the previous slash (but not
below dotdot); the buffer is truncated to the final write index. -/
def cleanBacktrack (out : List Char) (dotdot : Nat) : List Char :=
  out.take (backtrackW out dotdot (out.length - 1))

/-- The main loop of Go path.Clean.  The first argument is fuel equal to
the length of the remaining input; every iteration consumes at least one
input char, so the fuel never runs out before the input does.  out is the
content of the lazybuf up to its write index; dotdot mirrors the Go local. -/
def cleanLoop (rooted : Bool) : Nat → List Char → List Char → Nat → List Char
  | 0, _, out, _ => out
  | _ + 1, [], out, _ => out
  | fuel + 1, c :: rest, out, dotdot =>
    if c = '/' then
      cleanLoop rooted fuel rest out dotdot
    else if c = '.' ∧ (rest = [] ∨ rest.head? = some '/') then
      cleanLoop rooted fuel rest out dotdot
    else if c = '.' ∧ rest.head? = some '.' ∧
        (rest.drop 1 = [] ∨ (rest.drop 1).head? = some '/') then
      if dotdot < out.length then
        cleanLoop rooted fuel (rest.drop 1) (cleanBacktrack out dotdot) dotdot
      else if rooted = false then
        let out2 := (if 0 < out.length then out ++ ['/'] else out) ++ ['.', '.']
        cleanLoop rooted fuel (rest.drop 1) out2 out2.length
      else
        cleanLoop rooted fuel (rest.drop 1) out dotdot
    else
      let out2 :=
        if (rooted = true ∧ out.length ≠ 1) ∨ (rooted = false ∧ out.length ≠ 0) then
          out ++ ['/']
        else out
      let step := copyElement out2 (c :: rest)
      cleanLoop rooted fuel step.2 step.1 dotdot

/-- Embeds Go path.Clean: lexically resolves dot and dotdot elements and
redundant slashes; the empty path cleans to a dot, as does an empty result. -/
def pathClean (p : String) : String :=
  if p = "" then "."
  else
    let cs := p.toList
    let rooted := cs.head? = some '/'
    let start := if rooted then cs.drop 1 else cs
    let out0 : List Char := if rooted then ['/'] else []
    let dd0 : Nat := if rooted then 1 else 0
    let res := cleanLoop rooted start.length start out0 dd0
    if res.length = 0 then "." else String.mk res

/-- Embeds strings.TrimPrefix with the slash separator as used by
FS.normalize: drop one leading slash if present, else return unchanged. -/
def trimLeadingSlash (s : String) : String :=
  match s.toList with
  | '/' :: rest => String.mk rest
  | _ => s

/-- Embeds Go path.Join for the two-argument calls made by SubFS: if both
elements are empty the result is empty, otherwise the non-empty elements
are joined with a slash and cleaned. -/
def pathJoin (a b : String) : String :=
  if a = "" ∧ b = "" then ""
  else if a = "" then pathClean b
  else pathClean (a ++ "/" ++ b)

/-- Embeds strings.ToLower as used by FS.normalize: the simple case mapping
applied to every character, realized over the character list (the Go
function lowercases each rune of the string). -/
def strToLower (s : String) : String := String.mk (s.toList.map Char.toLower)

/-! Association-list model of the Go map d.keys. -/

/-- Reads the binding of a name, as the Go map read k, ok := d.keys n. -/
def mapGet (m : List (String × Key)) (n : String) : Option Key :=
  match m with
  | [] => none
  | p :: rest => if p.1 = n then some p.2 else mapGet rest n

/-- Removes the binding of a name, as the Go builtin delete(d.keys, n). -/
def mapDel (m : List (String × Key)) (n : String) : List (String × Key) :=
  match m with
  | [] => []
  | p :: rest => if p.1 = n then mapDel rest n else p :: mapDel rest n

/-- Writes a binding, replacing any existing one, as d.keys n = k. -/
def mapPut (m : List (String × Key)) (n : String) (v : Key) : List (String × Key) :=
  (n, v) :: mapDel m n

/-! The FS operations of fs.go. -/

/-- Embeds FS.normalize: lowercase when caseInsensitive, path.Clean, strip
one leading slash; the error component is always nil in the source. -/
def FS.normalize (d : FS) (name : String) : String × Option GoErr :=
  (trimLeadingSlash (pathClean (if d.caseInsensitive then strToLower name else name)), none)

/-- Embeds FS.lookup: miss when absent; when present with a non-nil expiry
that now is After, delete the binding and miss; otherwise a hit.  The Go
branch that self-heals a stored nil pointer cannot arise in this model,
since the association list stores Key values, not pointers. -/
def FS.lookup (d : FS) (now : Int) (name : String) : Option Key × FS :=
  match mapGet d.keys name with
  | none => (none, d)
  | some k =>
    match k.expire with
    | some e => if e < now then (none, { d with keys := mapDel d.keys name }) else (some k, d)
    | none => (some k, d)

/-- The callback loop of FS.fulfill, applied to the reversed callback list
(the Go loop indexes from the end): stop at the first callback returning a
non-nil error or non-nil content and keep its whole quadruple.  When every
callback declines, content and err are nil, which is all fulfill inspects. -/
def chainScan (cbs : List Fulfiller) (name : String) : FulfillOut :=
  match cbs with
  | [] => ⟨none, none, none, none⟩
  | c :: rest =>
    let r := c name
    if r.err.isSome then r
    else if r.content.isSome then r
    else chainScan rest name

/-- Embeds FS.fulfill: scan callbacks last-registered first; a callback
error is returned as-is; nil content after the scan is fs.ErrNotExist; a
nil modtime defaults to now; the new key is stored only when the returned
expire pointer is non-nil and not the zero time. -/
def FS.fulfill (d : FS) (now : Int) (name : String) : Except GoErr Key × FS :=
  let r := chainScan d.callbacks.reverse name
  match r.err with
  | some e => (.error e, d)
  | none =>
    match r.content with
    | none => (.error GoErr.notExist, d)
    | some content =>
      let mt := r.modtime.getD now
      let k : Key := ⟨content, name, mt, r.expire⟩
      match r.expire with
      | some t => if t ≠ 0 then (.ok k, { d with keys := mapPut d.keys name k }) else (.ok k, d)
      | none => (.ok k, d)

/-- Embeds FS.Open: normalize (wrapping a normalize error with the name),
lookup, and on a miss fulfill.  The fs.File wrapper returned by k.open()
carries exactly the key, so the result is modelled as the Key itself. -/
def FS.Open (d : FS) (now : Int) (name : String) : Except GoErr Key × FS :=
  let n := d.normalize name
  match n.2 with
  | some e => (.error (GoErr.wrap name e), d)
  | none =>
    match d.lookup now n.1 with
    | (some k, d2) => (.ok k, d2)
    | (none, d2) => d2.fulfill now n.1

/-- Embeds FS.ReadFile: like Open but returning bytes.Clone(k.bytes);
a clone of an immutable value is the value itself. -/
def FS.ReadFile (d : FS) (now : Int) (name : String) : Except GoErr (List Nat) × FS :=
  let n := d.normalize name
  match n.2 with
  | some e => (.error (GoErr.wrap name e), d)
  | none =>
    match d.lookup now n.1 with
    | (some k, d2) => (.ok k.bytes, d2)
    | (none, d2) =>
      match d2.fulfill now n.1 with
      | (.error e, d3) => (.error e, d3)
      | (.ok k, d3) => (.ok k.bytes, d3)

/-- Embeds FS.Stat: like Open, except that on a cache miss fulfillment only
runs when statFulfills is set; otherwise fs.ErrNotExist.  The FileStat
returned in the source carries exactly the key, modelled as the Key. -/
def FS.Stat (d : FS) (now : Int) (name : String) : Except GoErr Key × FS :=
  let n := d.normalize name
  match n.2 with
  | some e => (.error (GoErr.wrap name e), d)
  | none =>
    match d.lookup now n.1 with
    | (some k, d2) => (.ok k, d2)
    | (none, d2) =>
      if d2.statFulfills = false then (.error GoErr.notExist, d2)
      else d2.fulfill now n.1

/-- Embeds FS.Put: normalize (wrapping a normalize error with the name) and
store the caller-supplied key unconditionally, replacing any binding. -/
def FS.Put (d : FS) (name : String) (content : List Nat) (modtime : Int)
    (expire : Option Int) : Option GoErr × FS :=
  let n := d.normalize name
  match n.2 with
  | some e => (some (GoErr.wrap name e), d)
  | none => (none, { d with keys := mapPut d.keys n.1 ⟨content, n.1, modtime, expire⟩ })

/-- Embeds FS.Expire: normalize and delete the binding if present. -/
def FS.Expire (d : FS) (name : String) : Option GoErr × FS :=
  let n := d.normalize name
  match n.2 with
  | some e => (some (GoErr.wrap name e), d)
  | none => (none, { d with keys := mapDel d.keys n.1 })

/-- Embeds FS.FulfillWith: append the given callbacks; never errs. -/
def FS.FulfillWith (d : FS) (f : List Fulfiller) : Option GoErr × FS :=
  (none, { d with callbacks := d.callbacks ++ f })

/-- Embeds FS.Len: the number of stored keys. -/
def FS.Len (d : FS) : Nat := d.keys.length

/-- True exactly when the entry would be collected by FlushExpired:
a non-nil expire that now is After, i.e. strictly before now. -/
def keyExpired (now : Int) (k : Key) : Bool :=
  match k.expire with
  | some e => decide (e < now)
  | none => false

/-- Embeds FS.FlushExpired: first collect the names of all entries whose
non-nil expiry now is After, then delete each collected name. -/
def FS.FlushExpired (d : FS) (now : Int) : Option GoErr × FS :=
  let e := (d.keys.filter (fun p => keyExpired now p.2)).map Prod.fst
  (none, { d with keys := d.keys.filter (fun p => !(decide (p.1 ∈ e))) })

/-- Embeds the struct SubFS of stat.go: the owning store and the bound
directory d.  It has no further fields: no cache, no flags of its own. -/
structure SubFS where
  p : FS
  d : String

/-- Embeds FS.Sub: wrap the store with the given directory; never errs. -/
def FS.Sub (d : FS) (dir : String) : SubFS × Option GoErr :=
  (⟨d, dir⟩, none)

/-- Embeds SubFS.Open: forward to the owner under the joined path. -/
def SubFS.Open (s : SubFS) (now : Int) (name : String) : Except GoErr Key × FS :=
  s.p.Open now (pathJoin s.d name)

/-- Embeds SubFS.ReadFile: forward to the owner under the joined path. -/
def SubFS.ReadFile (s : SubFS) (now : Int) (name : String) : Except GoErr (List Nat) × FS :=
  s.p.ReadFile now (pathJoin s.d name)

/-- Embeds SubFS.Stat: forward to the owner under the joined path. -/
def SubFS.Stat (s : SubFS) (now : Int) (name : String) : Except GoErr Key × FS :=
  s.p.Stat now (pathJoin s.d name)

/-- Embeds SubFS.Sub: a deeper view on the same owner with joined prefixes. -/
def SubFS.Sub (s : SubFS) (dir : String) : SubFS × Option GoErr :=
  (⟨s.p, pathJoin s.d dir⟩, none)

/-- Embeds Compose of compose.go.  The wrapped fs.FS collaborator is
modelled as an oracle taking the path to either an error (its Open or
ReadAll failed; Compose wraps it with the path) or the fully read content
together with the Stat modification time (none when Stat errs, in which
case Compose falls back to now).  With a non-nil ttl the expiry is
now plus ttl; with a nil ttl no expiry is reported. -/
def Compose (t : String → Except GoErr (List Nat × Option Int)) (ttl : Option Int)
    (now : Int) : Fulfiller :=
  fun path =>
    match t path with
    | .error e => ⟨none, none, none, some (GoErr.wrap path e)⟩
    | .ok (buf, fiMt) =>
      let mt := fiMt.getD now
      match ttl with
      | some dur => ⟨some buf, some mt, some (now + dur), none⟩
      | none => ⟨some buf, some mt, none, none⟩

/-! Concrete stores and callbacks used to evaluate the operations. -/

/-- A wrapped filesystem holding one file a with content 7 and modtime 50. -/
def innerFsA : String → Except GoErr (List Nat × Option Int) :=
  fun p => if p = "a" then .ok ([7], some 50) else .error GoErr.notExist

/-- A store whose only generator is the adapter over innerFsA with no ttl. -/
def fsNoTtl : FS := ⟨[], [Compose innerFsA none 100], false, false⟩

/-- A generator returning a non-zero expiry in the past. -/
def genPastExpiry : Fulfiller := fun _ => ⟨some [7], some 50, some (-5), none⟩

/-- A store whose only generator is genPastExpiry. -/
def fsPastExpiry : FS := ⟨[], [genPastExpiry], false, false⟩

/-- A generator producing content 9 on every path. -/
def genNine : Fulfiller := fun _ => ⟨some [9], none, none, none⟩

/-- A generator producing content 5 with modtime 42 and expiry 7. -/
def genFive : Fulfiller := fun _ => ⟨some [5], some 42, some 7, none⟩

/-- A generator declining every path: nil content and nil error. -/
def genDecline : Fulfiller := fun _ => ⟨none, none, none, none⟩

/-- A chain registering genNine, then genFive, then genDecline. -/
def fsChain : FS := ⟨[], [genNine, genFive, genDecline], false, false⟩

/-- A store with genDecline as its only generator. -/
def fsDecline : FS := ⟨[], [genDecline], false, false⟩

/-- A generator failing every path with the opaque error user 7. -/
def genFail : Fulfiller := fun _ => ⟨none, none, none, some (GoErr.user 7)⟩

/-- A chain registering genNine first and genFail last. -/
def fsFail : FS := ⟨[], [genNine, genFail], false, false⟩

/-- An entry whose expiry is exactly the instant 100. -/
def keyAt100 : Key := ⟨[1], "a", 0, some 100⟩

/-- A store holding only keyAt100 under the key a. -/
def fsAt100 : FS := ⟨[("a", keyAt100)], [], false, false⟩

/-- A store with a generator and statFulfills disabled. -/
def fsStatOff : FS := ⟨[], [genNine], false, false⟩

/-- A store with a generator and statFulfills enabled. -/
def fsStatOn : FS := ⟨[], [genNine], false, true⟩

/-- A store with one seeded entry under the key a. -/
def fsSeeded : FS := ⟨[("a", ⟨[1], "a", 0, none⟩)], [], false, false⟩

/-- The empty store with no generators. -/
def fsEmpty : FS := ⟨[], [], false, false⟩

/-- Sweep fixture: three entries, of which exactly the one under b is
stale at instant 100. -/
def fsSweep : FS :=
  ⟨[("a", ⟨[1], "a", 0, none⟩), ("b", ⟨[2], "b", 0, some 10⟩), ("c", ⟨[3], "c", 0, some 200⟩)],
   [], false, false⟩

end Gomemfs

namespace Gomemfs

/-! Unfolding equations for the operations, and small shared lemmas. -/

theorem Open_eq (d : FS) (now : Int) (name : String) :
    d.Open now name =
      match d.lookup now (d.normalize name).1 with
      | (some k, d2) => (.ok k, d2)
      | (none, d2) => d2.fulfill now (d.normalize name).1 := rfl

theorem ReadFile_eq (d : FS) (now : Int) (name : String) :
    d.ReadFile now name =
      match d.lookup now (d.normalize name).1 with
      | (some k, d2) => (.ok k.bytes, d2)
      | (none, d2) =>
        match d2.fulfill now (d.normalize name).1 with
        | (.error e, d3) => (.error e, d3)
        | (.ok k, d3) => (.ok k.bytes, d3) := rfl

theorem Stat_eq (d : FS) (now : Int) (name : String) :
    d.Stat now name =
      match d.lookup now (d.normalize name).1 with
      | (some k, d2) => (.ok k, d2)
      | (none, d2) =>
        if d2.statFulfills = false then (.error GoErr.notExist, d2)
        else d2.fulfill now (d.normalize name).1 := rfl

theorem Put_eq (d : FS) (name : String) (content : List Nat) (modtime : Int)
    (expire : Option Int) :
    d.Put name content modtime expire =
      (none,
        { d with
          keys := mapPut d.keys (d.normalize name).1 ⟨content, (d.normalize name).1, modtime, expire⟩ }) :=
  rfl

theorem normalize_set_keys (d : FS) (ks : List (String × Key)) (name : String) :
    ({ d with keys := ks } : FS).normalize name = d.normalize name := rfl

theorem mapGet_mapPut_self (m : List (String × Key)) (n : String) (v : Key) :
    mapGet (mapPut m n v) n = some v := by
  simp [mapPut, mapGet]

theorem mem_mapDel (m : List (String × Key)) (n : String) (q : String × Key)
    (h : q ∈ mapDel m n) : q ∈ m ∧ q.1 ≠ n := by
  induction m with
  | nil => cases h
  | cons p rest ih =>
    simp only [mapDel] at h
    by_cases hp : p.1 = n
    · rw [if_pos hp] at h
      rcases ih h with ⟨h1, h2⟩
      exact ⟨List.mem_cons_of_mem p h1, h2⟩
    · rw [if_neg hp] at h
      rcases List.mem_cons.mp h with rfl | h
      · exact ⟨List.mem_cons_self q rest, hp⟩
      · rcases ih h with ⟨h1, h2⟩
        exact ⟨List.mem_cons_of_mem p h1, h2⟩

theorem lookup_hit (d : FS) (now : Int) (n : String) (k : Key)
    (h : mapGet d.keys n = some k) (hl : ∀ e, k.expire = some e → ¬ e < now) :
    d.lookup now n = (some k, d) := by
  rcases he : k.expire with _ | e
  · simp only [FS.lookup, h, he]
  · simp only [FS.lookup, h, he, if_neg (hl e he)]

theorem lookup_state_cases (d : FS) (now : Int) (n : String) :
    (d.lookup now n).2 = d ∨ (d.lookup now n).2 = { d with keys := mapDel d.keys n } := by
  rcases hm : mapGet d.keys n with _ | k
  · left; simp only [FS.lookup, hm]
  · rcases he : k.expire with _ | e
    · left; simp only [FS.lookup, hm, he]
    · by_cases hlt : e < now
      · right; simp only [FS.lookup, hm, he, if_pos hlt]
      · left; simp only [FS.lookup, hm, he, if_neg hlt]

theorem lookup_statFulfills (d : FS) (now : Int) (n : String) :
    ((d.lookup now n).2).statFulfills = d.statFulfills := by
  rcases lookup_state_cases d now n with h | h <;> rw [h]

theorem ReadFile_hit (d : FS) (now : Int) (name : String) (k : Key)
    (h : mapGet d.keys (d.normalize name).1 = some k)
    (hl : ∀ e, k.expire = some e → ¬ e < now) :
    (d.ReadFile now name).1 = .ok k.bytes := by
  rw [ReadFile_eq, lookup_hit d now (d.normalize name).1 k h hl]

theorem chainScan_skip_append (pre rest : List Fulfiller) (name : String)
    (h : ∀ c ∈ pre, (c name).content = none ∧ (c name).err = none) :
    chainScan (pre ++ rest) name = chainScan rest name := by
  induction pre with
  | nil => rfl
  | cons c pre ih =>
    have hc := h c (List.mem_cons_self c pre)
    have hrest : ∀ x ∈ pre, (x name).content = none ∧ (x name).err = none :=
      fun x hx => h x (List.mem_cons_of_mem c hx)
    simp only [List.cons_append, chainScan, hc.1, hc.2, Option.isSome_none,
      Bool.false_eq_true, if_false]
    exact ih hrest

theorem chainScan_cons_err (g : Fulfiller) (rest : List Fulfiller) (name : String)
    (e : GoErr) (h : (g name).err = some e) :
    chainScan (g :: rest) name = g name := by
  simp [chainScan, h]

theorem chainScan_cons_content (g : Fulfiller) (rest : List Fulfiller) (name : String)
    (h : (g name).err = none) (bs : List Nat) (hc : (g name).content = some bs) :
    chainScan (g :: rest) name = g name := by
  simp [chainScan, h, hc]

theorem reverse_split (A B : List Fulfiller) (g : Fulfiller) :
    (A ++ g :: B).reverse = B.reverse ++ g :: A.reverse := by
  simp

/-! Lemmas about FlushExpired's collect-then-delete pass. -/

theorem FlushExpired_eq (d : FS) (now : Int) :
    d.FlushExpired now =
      (none,
        { d with
          keys := d.keys.filter (fun p =>
            !(decide (p.1 ∈ (d.keys.filter (fun q => keyExpired now q.2)).map Prod.fst))) }) :=
  rfl

theorem filter_not_length (l : List (String × Key)) (p : String × Key → Bool) :
    (l.filter (fun x => !(p x))).length = l.length - l.countP p := by
  induction l with
  | nil => rfl
  | cons a t ih =>
    have hle := List.countP_le_length p (l := t)
    by_cases h : p a = true
    · simp only [List.filter_cons, List.countP_cons]
      rw [h]
      rw [if_neg (by decide : ¬ ((!true) = true)), if_pos rfl, ih, List.length_cons]
      omega
    · have hf : p a = false := by
        cases hpa : p a
        · rfl
        · exact absurd hpa h
      simp only [List.filter_cons, List.countP_cons]
      rw [hf]
      rw [if_pos (by decide : ((!false) = true)), if_neg (by decide : ¬ (false = true))]
      rw [List.length_cons, List.length_cons, ih]
      omega

theorem filter_expired_of_not (l : List (String × Key)) (p : String × Key → Bool) :
    (l.filter (fun x => !(p x))).filter p = [] := by
  induction l with
  | nil => rfl
  | cons a t ih =>
    by_cases h : p a = true
    · simp [List.filter_cons, h, ih]
    · simp [List.filter_cons, h, ih]

theorem filter_not_mem_nil (l : List (String × Key)) :
    l.filter (fun p => !(decide (p.1 ∈ ([] : List String)))) = l := by
  induction l with
  | nil => rfl
  | cons a t ih => simp [List.filter_cons, ih]

theorem flush_filter_eq (l : List (String × Key)) (now : Int)
    (h : (l.map Prod.fst).Nodup) :
    l.filter (fun p =>
        !(decide (p.1 ∈ (l.filter (fun q => keyExpired now q.2)).map Prod.fst)))
      = l.filter (fun p => !(keyExpired now p.2)) := by
  apply List.filter_congr
  intro p hp
  suffices hs : (decide (p.1 ∈ (l.filter (fun q => keyExpired now q.2)).map Prod.fst))
      = keyExpired now p.2 by rw [hs]
  by_cases hk : keyExpired now p.2 = true
  · rw [hk]
    rw [decide_eq_true_eq]
    exact List.mem_map.mpr ⟨p, List.mem_filter.mpr ⟨hp, hk⟩, rfl⟩
  · have hkf : keyExpired now p.2 = false := by
      rw [← Bool.not_eq_true]
      exact hk
    rw [hkf]
    rw [decide_eq_false_iff_not]
    intro hmem
    rcases List.mem_map.mp hmem with ⟨q, hq, hq1⟩
    rcases List.mem_filter.mp hq with ⟨hql, hqe⟩
    have hqp : q = p := List.inj_on_of_nodup_map h hql hp hq1
    rw [hqp] at hqe
    exact hk hqe

end Gomemfs

namespace Gomemfs

/-! The claims. -/

/-- C1: the claim states an Entry is written into the store exactly when the
returned expiry is absent or a non-zero future instant, with an absent expiry
(the filesystem adapter without ttl) cached forever.  The code instead stores
only when the expiry pointer is non-nil and non-zero: here the adapter with no
ttl fulfills successfully yet the store stays empty, while a generator
returning the non-zero past expiry -5 at now = 100 does get stored. -/
theorem C1_fulfill_cache_eval :
    (fsNoTtl.Open 100 "a").1 = Except.ok ⟨[7], "a", 50, none⟩
    ∧ (fsNoTtl.Open 100 "a").2.keys = []
    ∧ (fsPastExpiry.fulfill 100 "a").1 = Except.ok ⟨[7], "a", 50, some (-5)⟩
    ∧ (fsPastExpiry.fulfill 100 "a").2.keys = [("a", ⟨[7], "a", 50, some (-5)⟩)] :=
  ⟨rfl, rfl, rfl, rfl⟩

/-- C2: with callbacks = A ++ g :: B in registration order, when every
later-registered callback in B declines (nil content, nil error) and g
returns content, fulfillment returns g's content, modtime (defaulted to now)
and expiry, for every earlier-registered list A, which is never consulted;
and when every callback declines, fulfillment fails with fs.ErrNotExist and
leaves the store unmodified. -/
theorem C2_chain_resolution (d : FS) (now : Int) (name : String) :
    (∀ A g B, d.callbacks = A ++ g :: B →
      (∀ c ∈ B, (c name).content = none ∧ (c name).err = none) →
      (g name).err = none →
      ∀ bs, (g name).content = some bs →
      (d.fulfill now name).1 =
        Except.ok ⟨bs, name, (g name).modtime.getD now, (g name).expire⟩)
    ∧ ((∀ c ∈ d.callbacks, (c name).content = none ∧ (c name).err = none) →
      d.fulfill now name = (Except.error GoErr.notExist, d)) := by
  constructor
  · intro A g B hcb hB hge bs hbs
    have hscan : chainScan d.callbacks.reverse name = g name := by
      rw [hcb, reverse_split]
      rw [chainScan_skip_append B.reverse (g :: A.reverse) name
        (fun c hc => hB c (List.mem_reverse.mp hc))]
      exact chainScan_cons_content g A.reverse name hge bs hbs
    simp only [FS.fulfill, hscan, hge, hbs]
    rcases hE : (g name).expire with _ | t
    · simp only [hE]
    · simp only [hE]
      by_cases ht : t = 0
      · rw [if_neg (fun hc => hc ht)]
      · rw [if_pos ht]
  · intro hall
    have hscan : chainScan d.callbacks.reverse name = ⟨none, none, none, none⟩ := by
      have h2 := chainScan_skip_append d.callbacks.reverse [] name
        (fun c hc => hall c (List.mem_reverse.mp hc))
      simpa using h2
    simp only [FS.fulfill, hscan]

/-- C2 witness: in the chain genNine, genFive, genDecline the last-registered
genDecline declines, genFive answers with content 5, modtime 42, expiry 7,
and genNine is never reached; in a chain of only genDecline the fulfillment
fails with fs.ErrNotExist. -/
theorem C2_chain_resolution_witness :
    (fsChain.fulfill 0 "k").1 = Except.ok ⟨[5], "k", 42, some 7⟩
    ∧ fsDecline.fulfill 0 "k" = (Except.error GoErr.notExist, fsDecline) := by
  constructor
  · exact (C2_chain_resolution fsChain 0 "k").1 [genNine] genFive [genDecline] rfl
      (fun c hc => by rw [List.mem_singleton] at hc; subst hc; exact ⟨rfl, rfl⟩) rfl [5] rfl
  · exact (C2_chain_resolution fsDecline 0 "k").2
      (fun c hc => by
        have hc2 : c ∈ [genDecline] := hc
        rw [List.mem_singleton] at hc2
        subst hc2
        exact ⟨rfl, rfl⟩)

/-- C3 counterexample: the claim says a generator error is returned wrapped
with the failing path.  In the chain fsFail the generator genFail errs with
user 7 on path c, and Open returns exactly that error, which is not the
path-wrapped error value. -/
theorem C3_no_wrap_counterexample :
    (fsFail.Open 0 "c").1 = Except.error (GoErr.user 7)
    ∧ GoErr.user 7 ≠ GoErr.wrap "c" (GoErr.user 7) :=
  ⟨rfl, by decide⟩

/-- C3 as amended: whenever the first non-declining callback (scanning from
the last registered) returns a non-nil error, fulfillment fails with that
error propagated verbatim, no earlier-registered callback is consulted (A is
arbitrary), and the store is left unmodified. -/
theorem C3_generator_error_verbatim (d : FS) (now : Int) (name : String) :
    ∀ A g B e, d.callbacks = A ++ g :: B →
      (∀ c ∈ B, (c name).content = none ∧ (c name).err = none) →
      (g name).err = some e →
      d.fulfill now name = (Except.error e, d) := by
  intro A g B e hcb hB hge
  have hscan : chainScan d.callbacks.reverse name = g name := by
    rw [hcb, reverse_split]
    rw [chainScan_skip_append B.reverse (g :: A.reverse) name
      (fun c hc => hB c (List.mem_reverse.mp hc))]
    exact chainScan_cons_err g A.reverse name e hge
  simp only [FS.fulfill, hscan, hge]

/-- C3 witness: in fsFail the last-registered genFail errs with user 7, the
fulfillment returns that error and the store is unchanged, even though the
earlier genNine could have answered. -/
theorem C3_generator_error_verbatim_witness :
    fsFail.fulfill 0 "c" = (Except.error (GoErr.user 7), fsFail) :=
  C3_generator_error_verbatim fsFail 0 "c" [genNine] genFail [] (GoErr.user 7) rfl
    (fun _ hc => nomatch hc) rfl

/-- C4 counterexample: the claim says an entry whose expiry is not after now
(so also one expiring exactly at now) is deleted and reported as a miss.  At
now = 100 the entry with expiry 100 satisfies not-after (100 is at most 100),
yet lookup returns it and deletes nothing. -/
theorem C4_boundary_counterexample :
    (100 : Int) ≤ 100
    ∧ (fsAt100.lookup 100 "a").1 = some keyAt100
    ∧ (fsAt100.lookup 100 "a").2.keys = [("a", keyAt100)] :=
  ⟨by decide, rfl, rfl⟩

/-- C4 as amended: for a stored entry, lookup deletes the mapping and reports
a miss exactly when the expiry exists and is strictly before now (now is
strictly after it); otherwise, including at expiry equal to now and for an
absent expiry, the live entry is returned with the store unchanged. -/
theorem C4_lookup_expiry (d : FS) (now : Int) (n : String) (k : Key)
    (h : mapGet d.keys n = some k) :
    (∀ e, k.expire = some e → e < now →
      d.lookup now n = (none, { d with keys := mapDel d.keys n }))
    ∧ (∀ e, k.expire = some e → ¬ e < now → d.lookup now n = (some k, d))
    ∧ (k.expire = none → d.lookup now n = (some k, d)) := by
  refine ⟨?_, ?_, ?_⟩
  · intro e he hlt
    simp only [FS.lookup, h, he, if_pos hlt]
  · intro e he hlt
    simp only [FS.lookup, h, he, if_neg hlt]
  · intro he
    simp only [FS.lookup, h, he]

/-- C4 witness: at now = 101 the entry expiring at 100 is strictly stale,
so lookup deletes it and reports a miss. -/
theorem C4_lookup_expiry_witness :
    fsAt100.lookup 101 "a" = (none, { fsAt100 with keys := mapDel fsAt100.keys "a" }) :=
  (C4_lookup_expiry fsAt100 101 "a" keyAt100 rfl).1 100 rfl (by decide)

end Gomemfs

namespace Gomemfs

/-- C5: with statFulfills disabled, Stat on a key with no live cache entry
returns fs.ErrNotExist with the post-lookup store, whatever the callback
chain holds (no generator is consulted: the conclusion does not depend on
d.callbacks); with statFulfills enabled, Stat behaves exactly as the
content-retrieving Open on every input. -/
theorem C5_stat_gating (d : FS) (now : Int) (name : String) :
    (d.statFulfills = false →
      (d.lookup now (d.normalize name).1).1 = none →
      d.Stat now name = (Except.error GoErr.notExist, (d.lookup now (d.normalize name).1).2))
    ∧ (d.statFulfills = true → d.Stat now name = d.Open now name) := by
  constructor
  · intro hf hmiss
    have hsf := lookup_statFulfills d now (d.normalize name).1
    rw [Stat_eq]
    set lr := d.lookup now (d.normalize name).1 with hlr
    rcases lr with ⟨r, d2⟩
    simp only at hmiss hsf
    subst hmiss
    rw [hf] at hsf
    simp only [if_pos hsf]
  · intro hf
    have hsf := lookup_statFulfills d now (d.normalize name).1
    rw [Stat_eq, Open_eq]
    set lr := d.lookup now (d.normalize name).1 with hlr
    rcases lr with ⟨r, d2⟩
    simp only at hsf
    cases r with
    | some k => rfl
    | none =>
      have ht : d2.statFulfills = true := hsf.trans hf
      show (if d2.statFulfills = false then (Except.error GoErr.notExist, d2)
        else d2.fulfill now (d.normalize name).1) = d2.fulfill now (d.normalize name).1
      rw [if_neg (by rw [ht]; decide)]

/-- C5 witness: on the unseeded key x, the store with statFulfills disabled
reports fs.ErrNotExist although its generator could answer, while the same
store with the flag enabled answers exactly as Open does. -/
theorem C5_stat_gating_witness :
    fsStatOff.Stat 0 "x"
      = (Except.error GoErr.notExist, (fsStatOff.lookup 0 (fsStatOff.normalize "x").1).2)
    ∧ fsStatOn.Stat 0 "x" = fsStatOn.Open 0 "x" :=
  ⟨(C5_stat_gating fsStatOff 0 "x").1 rfl (by decide),
   (C5_stat_gating fsStatOn 0 "x").2 rfl⟩

/-- C6: Put stores the caller-supplied entry under the normalized name
unconditionally, for every expiry value including the zero time, replacing
any previous binding (the new binding is the only one for that name), no
generator is consulted, and while the entry is live a retrieval of the same
key returns exactly the latest payload. -/
theorem C6_put_semantics (d : FS) (name : String) (content : List Nat) (modtime : Int)
    (expire : Option Int) :
    d.Put name content modtime expire =
      (none,
        { d with
          keys := mapPut d.keys (d.normalize name).1 ⟨content, (d.normalize name).1, modtime, expire⟩ })
    ∧ mapGet ((d.Put name content modtime expire).2).keys (d.normalize name).1 =
        some ⟨content, (d.normalize name).1, modtime, expire⟩
    ∧ (∀ q ∈ ((d.Put name content modtime expire).2).keys,
        q.1 = (d.normalize name).1 → q.2 = ⟨content, (d.normalize name).1, modtime, expire⟩)
    ∧ (∀ now, (∀ e, expire = some e → ¬ e < now) →
        ((d.Put name content modtime expire).2.ReadFile now name).1 = Except.ok content) := by
  refine ⟨Put_eq d name content modtime expire, ?_, ?_, ?_⟩
  · rw [Put_eq]
    exact mapGet_mapPut_self _ _ _
  · intro q hq hq1
    rw [Put_eq] at hq
    rcases List.mem_cons.mp hq with rfl | hq2
    · rfl
    · exact absurd hq1 (mem_mapDel _ _ _ hq2).2
  · intro now hl
    exact ReadFile_hit ((d.Put name content modtime expire).2) now name
      ⟨content, (d.normalize name).1, modtime, expire⟩
      (by rw [Put_eq]; exact mapGet_mapPut_self _ _ _) hl

/-- C6 witness: re-seeding the already-seeded key a with payload 9 and the
zero-value expiry stores the new entry, and retrieval at an instant before
the zero time returns the latest payload. -/
theorem C6_put_semantics_witness :
    mapGet ((fsSeeded.Put "a" [9] 5 (some 0)).2).keys (fsSeeded.normalize "a").1
      = some ⟨[9], (fsSeeded.normalize "a").1, 5, some 0⟩
    ∧ ((fsSeeded.Put "a" [9] 5 (some 0)).2.ReadFile (-1) "a").1 = Except.ok [9] := by
  refine ⟨(C6_put_semantics fsSeeded "a" [9] 5 (some 0)).2.1, ?_⟩
  exact (C6_put_semantics fsSeeded "a" [9] 5 (some 0)).2.2.2 (-1)
    (fun e he => by injection he with h2; omega)

/-- C7: any two paths with the same normalized key address the same cache
slot: a Put under p1 is visible to a ReadFile under p2 while live; and the
spec's example pair normalizes identically on every store configuration.
Normalization itself is a pure function of the store flags and the input. -/
theorem C7_normalization_aliasing (d : FS) (p1 p2 : String) (content : List Nat)
    (modtime : Int) (expire : Option Int) (now : Int)
    (hnorm : (d.normalize p1).1 = (d.normalize p2).1)
    (hlive : ∀ e, expire = some e → ¬ e < now) :
    ((d.Put p1 content modtime expire).2.ReadFile now p2).1 = Except.ok content
    ∧ (d.normalize "//a/./b/../c").1 = (d.normalize "a/c").1 := by
  constructor
  · refine ReadFile_hit ((d.Put p1 content modtime expire).2) now p2
      ⟨content, (d.normalize p1).1, modtime, expire⟩ ?_ hlive
    rw [Put_eq]
    show mapGet (mapPut d.keys (d.normalize p1).1 _) (d.normalize p2).1 = _
    rw [← hnorm]
    exact mapGet_mapPut_self _ _ _
  · cases hci : d.caseInsensitive
    · simp only [FS.normalize, hci]
      decide
    · simp only [FS.normalize, hci]
      decide

/-- C7 witness: seeding the empty store under the raw path of the spec
example and reading under its normal form returns the seeded payload. -/
theorem C7_normalization_aliasing_witness :
    ((fsEmpty.Put "//a/./b/../c" [3] 0 none).2.ReadFile 0 "a/c").1 = Except.ok [3]
    ∧ (fsEmpty.normalize "//a/./b/../c").1 = (fsEmpty.normalize "a/c").1 :=
  C7_normalization_aliasing fsEmpty "//a/./b/../c" "a/c" [3] 0 none 0 (by decide)
    (fun _ he => nomatch he)

/-- C8: every SubFS operation returns exactly what the owning store's same
operation returns on the path joined under the bound prefix; a deeper
sub-view composes prefixes by path-joining on the same owner; and the view
built by Sub carries only the owner and the prefix, no cache or flags. -/
theorem C8_subview_forwarding (p : FS) (d dir name : String) (now : Int) :
    (SubFS.mk p d).Open now name = p.Open now (pathJoin d name)
    ∧ (SubFS.mk p d).ReadFile now name = p.ReadFile now (pathJoin d name)
    ∧ (SubFS.mk p d).Stat now name = p.Stat now (pathJoin d name)
    ∧ (SubFS.mk p d).Sub dir = (SubFS.mk p (pathJoin d dir), none)
    ∧ p.Sub d = (SubFS.mk p d, none) :=
  ⟨rfl, rfl, rfl, rfl, rfl⟩

/-- C9: a sweep keeps exactly the entries that are not strictly expired:
the surviving keys are the filter of the live ones, with N as the entry
count and K the count of entries whose expiry is non-nil and strictly before
now exactly N minus K entries remain, an immediately repeated sweep removes
nothing, and membership is unchanged for every non-expired entry. -/
theorem C9_sweep (d : FS) (now : Int) (h : (d.keys.map Prod.fst).Nodup) :
    (d.FlushExpired now).2.keys = d.keys.filter (fun p => !(keyExpired now p.2))
    ∧ (d.FlushExpired now).2.keys.length
        = d.keys.length - d.keys.countP (fun p => keyExpired now p.2)
    ∧ (d.FlushExpired now).2.FlushExpired now = d.FlushExpired now
    ∧ (∀ p, p ∈ (d.FlushExpired now).2.keys ↔ p ∈ d.keys ∧ keyExpired now p.2 = false) := by
  have h1 : (d.FlushExpired now).2.keys = d.keys.filter (fun p => !(keyExpired now p.2)) := by
    rw [FlushExpired_eq]
    exact flush_filter_eq d.keys now h
  have hr : d.FlushExpired now = (none, (d.FlushExpired now).2) := rfl
  refine ⟨h1, ?_, ?_, ?_⟩
  · rw [h1]
    exact filter_not_length d.keys _
  · have hkeys : ((d.FlushExpired now).2).keys.filter (fun p =>
        !(decide (p.1 ∈ (((d.FlushExpired now).2).keys.filter
          (fun q => keyExpired now q.2)).map Prod.fst)))
        = ((d.FlushExpired now).2).keys := by
      rw [h1, filter_expired_of_not, List.map_nil]
      exact filter_not_mem_nil _
    rw [FlushExpired_eq ((d.FlushExpired now).2) now, hkeys]
    exact hr.symm
  · intro p
    rw [h1, List.mem_filter]
    constructor
    · rintro ⟨hpl, hpe⟩
      refine ⟨hpl, ?_⟩
      cases hke : keyExpired now p.2
      · rfl
      · rw [hke] at hpe
        cases hpe
    · rintro ⟨hpl, hpe⟩
      refine ⟨hpl, ?_⟩
      rw [hpe]
      rfl

/-- C9 witness: of the three entries of fsSweep exactly one is stale at
instant 100, so two entries survive the sweep. -/
theorem C9_sweep_witness :
    (fsSweep.FlushExpired 100).2.keys.length
      = fsSweep.keys.length - fsSweep.keys.countP (fun p => keyExpired 100 p.2) :=
  (C9_sweep fsSweep 100 (by decide)).2.1

/-- C10: normalization always reports a nil error, so the operations whose
only failure source is normalization, Put, Expire, FulfillWith and
FlushExpired, return a nil error on every input, and the normalize-error
branches of Open, ReadFile, Stat, Put and Expire are unreachable. -/
theorem C10_normalize_total (d : FS) (name : String) (content : List Nat) (modtime : Int)
    (expire : Option Int) (f : List Fulfiller) (now : Int) :
    (d.normalize name).2 = none
    ∧ (d.Put name content modtime expire).1 = none
    ∧ (d.Expire name).1 = none
    ∧ (d.FulfillWith f).1 = none
    ∧ (d.FlushExpired now).1 = none :=
  ⟨rfl, rfl, rfl, rfl, rfl⟩

end Gomemfs
